import Mathlib

/-!
The MongoDB connection builder (`mongodb.go`).

A shallow embedding of the package `mongodb`: the `builder` record, the chain
calls `WithTLS` and `WithRetryWrites`, the composition of the connection string
(`uri`), the three option steps (`setOptionURI`, `setOptionAuth`,
`setOptionTLS`) and the terminal operation `GetClient`.

Conventions of the embedding.

* A Go `string` is a Lean `String`.  `fmt.Sprintf` with only `%s` verbs is the
  concatenation of its pieces.
* A Go `map[string]string` is the list of its entries (`Params`).  The order in
  which `range` visits the entries is not fixed by the language, so `uri` takes
  that order as an argument `enum`; it is a permutation of the entries.
* The pointer receiver `*builder` is explicit state passing: every method
  returns the updated record.
* The standard library and the driver are collaborators of the package and are
  arguments of the embedding (`Lib`): base64 decoding, the certificate pool,
  the driver's `ApplyURI` and `mongo.Connect`.  The driver's options object is
  the record `ClientOptions` of the fields the package writes; what `ApplyURI`
  puts into them is up to the driver.
* Dereferencing the nil `options` pointer is a run-time panic, rendered as
  `none`.
-/

namespace MongoDB

/-! ## Maps -/

/-- Entries of a Go `map[string]string`. A map holds each key at most once
(`Params.WF`); the functions below do not need that to be stated. -/
abbrev Params := List (String × String)

namespace Params

/-- The keys of a map are pairwise distinct. -/
def WF (m : Params) : Prop := (m.map Prod.fst).Nodup

/-- Read access `m[k]` with the presence flag: `none` when `k` is absent. -/
def get (m : Params) (k : String) : Option String := List.lookup k m

/-- Assignment `m[k] = v`: any entry for `k` is replaced. -/
def set (m : Params) (k v : String) : Params :=
  (k, v) :: m.filter (fun e => e.1 != k)

end Params

/-! ## Errors -/

/-- Error values that occur in the package: `base64.CorruptInputError`, the
value built by `fmt.Errorf` from a constant message, and errors of the driver. -/
inductive GoError where
  | corruptInput (offset : Nat)
  | errorf (msg : String)
  | driver (msg : String)
deriving DecidableEq, Repr

/-- The method `Error()` of an error value. -/
def GoError.Error : GoError → String
  | .corruptInput offset => "illegal base64 data at input byte " ++ Nat.repr offset
  | .errorf msg => msg
  | .driver msg => msg

/-! ## The driver's options object -/

/-- Value of `options.Credential` as the package fills it. -/
structure Credential where
  Username : String
  Password : String
deriving DecidableEq, Repr

/-- Value of `tls.Config`, of which the package fills only `RootCAs`; `none` is
the nil pool of a configuration that was made without one. -/
structure TLSConfig (Pool : Type) where
  RootCAs : Option Pool
deriving DecidableEq, Repr

/-- The `*options.ClientOptions` object: the connection string it keeps and the
two fields the package writes, `Auth` and `TLSConfig` (`none` is nil). -/
structure ClientOptions (Pool : Type) where
  appliedURI : String
  Auth : Option Credential
  TLSConfig : Option (TLSConfig Pool)
deriving DecidableEq, Repr

/-- Setter `SetAuth`: stores the credential and returns the object. -/
def ClientOptions.SetAuth {Pool : Type} (c : ClientOptions Pool) (auth : Credential) :
    ClientOptions Pool :=
  { c with Auth := some auth }

/-- Setter `SetTLSConfig`: stores the configuration and returns the object. -/
def ClientOptions.SetTLSConfig {Pool : Type} (c : ClientOptions Pool)
    (cfg : MongoDB.TLSConfig Pool) :
    ClientOptions Pool :=
  { c with TLSConfig := some cfg }

/-! ## Collaborators -/

/-- A byte slice `[]byte`; every element is below 256. -/
abbrev Bytes := List Nat

/-- The library calls the package makes and does not implement:
`base64.StdEncoding.DecodeString`, `x509.NewCertPool`,
`(*CertPool).AppendCertsFromPEM` (the pool after the call and its `ok` flag),
`options.Client().ApplyURI` (the object the driver makes from a connection
string, with whatever it reads from the string already in it) and
`mongo.Connect` (the pair it returns; `none` is nil). -/
structure Lib (Pool Client Ctx : Type) where
  DecodeString : String → Except GoError Bytes
  NewCertPool : Pool
  AppendCertsFromPEM : Pool → Bytes → Pool × Bool
  ApplyURI : String → ClientOptions Pool
  Connect : Ctx → Option (ClientOptions Pool) → Option Client × Option GoError

/-! ## The builder -/

/-- The struct `builder`. -/
structure builder (Pool : Type) where
  host : String
  port : String
  username : String
  password : String
  tls : Bool
  ca : String
  params : Params
  options : Option (ClientOptions Pool)
deriving DecidableEq, Repr

/-- The slice expression `s[1:]` on a string whose first byte is an ASCII
character: everything after that character. -/
def sliceFrom1 (s : String) : String := ⟨s.data.drop 1⟩

/-- The loop `for k, v := range b.params { params += fmt.Sprintf("&%s=%s", k, v) }`
run over the entries in the order `enum`, starting from the string `acc`. -/
def rangeParams (enum : Params) (acc : String) : String :=
  enum.foldl (fun params e => params ++ ("&" ++ e.1 ++ "=" ++ e.2)) acc

variable {Pool Client Ctx : Type}

/-- The first line of `uri`: `fmt.Sprintf("mongodb://%s:%s", b.host, b.port)`. -/
def builder.base (b : builder Pool) : String :=
  "mongodb://" ++ b.host ++ ":" ++ b.port

/-- The method `uri`, with `enum` the order in which `range` yields the entries
of `b.params`. -/
def builder.uri (b : builder Pool) (enum : Params) : String :=
  let uri := b.base
  if b.params.length > 0 then
    let params := rangeParams enum ""
    uri ++ "/?" ++ sliceFrom1 params
  else
    uri

/-- The method `setOptionURI`. -/
def builder.setOptionURI (L : Lib Pool Client Ctx) (b : builder Pool) (enum : Params) :
    builder Pool :=
  { b with options := some (L.ApplyURI (b.uri enum)) }

/-- The method `setOptionAuth`; `none` is the panic of `SetAuth` on a nil
options pointer. -/
def builder.setOptionAuth (b : builder Pool) : Option (builder Pool) :=
  if b.username ≠ "" ∧ b.password ≠ "" then
    match b.options with
    | none => none
    | some o =>
      some { b with options := some (o.SetAuth { Username := b.username, Password := b.password }) }
  else
    some b

/-- The method `getTLSConfig`. -/
def builder.getTLSConfig (L : Lib Pool Client Ctx) (b : builder Pool) :
    Except GoError (TLSConfig Pool) :=
  match L.DecodeString b.ca with
  | .error err => .error err
  | .ok caCert =>
    let roots := L.NewCertPool
    let r := L.AppendCertsFromPEM roots caCert
    if r.2 then
      .ok { RootCAs := some r.1 }
    else
      .error (.errorf "failed to parse root certificate")

/-- The method `setOptionTLS`; the outer `none` is the panic of `SetTLSConfig`
on a nil options pointer. -/
def builder.setOptionTLS (L : Lib Pool Client Ctx) (b : builder Pool) :
    Option (Except GoError (builder Pool)) :=
  match b.getTLSConfig L with
  | .error err => some (.error err)
  | .ok tlsConfig =>
    match b.options with
    | none => none
    | some o => some (.ok { b with options := some (o.SetTLSConfig tlsConfig) })

/-- The function `NewBuilder`. -/
def NewBuilder (host port username password : String) : builder Pool :=
  { host := host, port := port, username := username, password := password,
    tls := false, ca := "", params := [], options := none }

/-- The method `WithTLS`. -/
def builder.WithTLS (b : builder Pool) (ca : String) : builder Pool :=
  { b with tls := true, ca := ca, params := b.params.set "tls" "true" }

/-- The method `WithRetryWrites`. -/
def builder.WithRetryWrites (b : builder Pool) (value : String) : builder Pool :=
  { b with params := b.params.set "retryWrites" value }

/-- What `GetClient` hands back: the returned pair (`none` is nil), the
arguments of every `mongo.Connect` call it made, and the builder afterwards. -/
structure GetClientResult (Pool Client : Type) where
  client : Option Client
  err : Option GoError
  connectCalls : List (Option (ClientOptions Pool))
  final : builder Pool

/-- The method `GetClient`; `none` is a panic. -/
def builder.GetClient (L : Lib Pool Client Ctx) (b : builder Pool) (ctx : Ctx) (enum : Params) :
    Option (GetClientResult Pool Client) :=
  match (b.setOptionURI L enum).setOptionAuth with
  | none => none
  | some b1 =>
    if b1.tls then
      match b1.setOptionTLS L with
      | none => none
      | some (.error err) =>
        some { client := none, err := some err, connectCalls := [], final := b1 }
      | some (.ok b2) =>
        let r := L.Connect ctx b2.options
        some { client := r.1, err := r.2, connectCalls := [b2.options], final := b2 }
    else
      let r := L.Connect ctx b1.options
      some { client := r.1, err := r.2, connectCalls := [b1.options], final := b1 }

/-! ## Chains of calls -/

/-- One chain call on a builder. -/
inductive Call where
  | WithTLS (ca : String)
  | WithRetryWrites (value : String)
deriving DecidableEq, Repr

/-- The builder after one chain call. -/
def builder.call (b : builder Pool) : Call → builder Pool
  | .WithTLS ca => b.WithTLS ca
  | .WithRetryWrites value => b.WithRetryWrites value

/-- The builder after a sequence of chain calls, first call first. -/
def builder.chain (b : builder Pool) (calls : List Call) : builder Pool :=
  calls.foldl builder.call b

/-- The call is a `WithTLS` call. -/
def Call.isTLS : Call → Bool
  | .WithTLS _ => true
  | .WithRetryWrites _ => false

/-- The call is a `WithRetryWrites` call. -/
def Call.isRetryWrites : Call → Bool
  | .WithTLS _ => false
  | .WithRetryWrites _ => true

/-! ## Reading a connection string back -/

/-- The text `Q` of a query section written from the entries `enum`: the
strings `k ++ "=" ++ v`, joined by `"&"`. -/
def queryOf (enum : Params) : String :=
  String.intercalate "&" (enum.map fun e => e.1 ++ "=" ++ e.2)

/-- The query section of a connection string `s` composed for the builder `b`:
what follows the `"/?"` written after `mongodb://host:port`. -/
def builder.querySection (b : builder Pool) (s : String) : String :=
  ⟨s.data.drop (b.base.length + 2)⟩

/-- Cut a text at every occurrence of `sep`. -/
def splitAll (sep : Char) : List Char → List (List Char)
  | [] => [[]]
  | c :: cs =>
    if c = sep then [] :: splitAll sep cs
    else
      match splitAll sep cs with
      | [] => [[c]]
      | w :: ws => (c :: w) :: ws

/-- Cut a text at the first occurrence of `sep`; without one the second part is
empty. -/
def splitFirst (sep : Char) : List Char → List Char × List Char
  | [] => ([], [])
  | c :: cs =>
    if c = sep then ([], cs)
    else ((c :: (splitFirst sep cs).1), (splitFirst sep cs).2)

/-- The key/value pairs a reader finds in a query section: cut on `&`, then
each piece on its first `=`. -/
def parseQuery (q : String) : List (String × String) :=
  (splitAll '&' q.data).map fun w => (⟨(splitFirst '=' w).1⟩, ⟨(splitFirst '=' w).2⟩)

/-- The text starts with the two characters `/?`. -/
def startsWithSep : List Char → Bool
  | c :: d :: _ => c == '/' && d == '?'
  | _ => false

/-- The text has an occurrence of `/?`. -/
def containsSep : List Char → Bool
  | [] => false
  | c :: cs => startsWithSep (c :: cs) || containsSep cs

/-- What precedes the first occurrence of `/?` in a text; the whole text when
there is none. -/
def beforeFirstSep : List Char → List Char
  | [] => []
  | c :: cs => if startsWithSep (c :: cs) then [] else c :: beforeFirstSep cs

/-- The part of a connection string that precedes its query separator: what a
reader finds before the first `/?` of the string. -/
def beforeQuerySeparator (s : String) : String := ⟨beforeFirstSep s.data⟩

/-! ## An instance of the collaborators, for evaluating examples -/

/-- Value of a character in the standard base64 alphabet (RFC 4648, table 1). -/
def b64Value (c : Char) : Option Nat :=
  let n := c.toNat
  if 65 ≤ n ∧ n ≤ 90 then some (n - 65)
  else if 97 ≤ n ∧ n ≤ 122 then some (n - 97 + 26)
  else if 48 ≤ n ∧ n ≤ 57 then some (n - 48 + 52)
  else if n = 43 then some 62
  else if n = 47 then some 63
  else none

/-- The character is a line feed or a carriage return. -/
def isNewline (c : Char) : Bool := c.toNat == 10 || c.toNat == 13

/-- The inner loops of Go's `decodeQuantum` that step over line feeds and
carriage returns: the offset and the input after them. -/
def skipNewlines (si : Nat) : List Char → Nat × List Char
  | [] => (si, [])
  | c :: cs => if isNewline c then skipNewlines (si + 1) cs else (si, c :: cs)

/-- End of Go's `decodeQuantum` after the padding: newlines are skipped, and
anything left is trailing garbage at its offset. -/
def finishPadding (si : Nat) (rest : List Char) (bytes : Bytes) : Except GoError Bytes :=
  match (skipNewlines si rest).2 with
  | [] => .ok bytes
  | _ :: _ => .error (.corruptInput (skipNewlines si rest).1)

/-- The decoding loop of Go's `base64.StdEncoding` (`Decode` calling
`decodeQuantum`), on the input from offset `si` on, with `dbuf` the values of
the current group read so far. Characters of the alphabet fill the group, four
of them give three bytes; newlines are skipped; any other character than `=` is
corrupt input at its offset, and so is `=` in the first two places of a group;
input that ends inside a group is corrupt at `si - j`; after the padding only
newlines may follow. A character outside ASCII stands for bytes outside the
alphabet and is corrupt input at the offset of its first byte, which is its
index here because everything before it was ASCII. -/
def decodeLoop (si : Nat) (dbuf : List Nat) : List Char → Except GoError Bytes
  | [] => if dbuf.length = 0 then .ok [] else .error (.corruptInput (si - dbuf.length))
  | c :: rest =>
    match b64Value c with
    | some out =>
      match dbuf with
      | [d0, d1, d2] =>
        match decodeLoop (si + 1) [] rest with
        | .error err => .error err
        | .ok bs =>
          .ok ((d0 * 4 + d1 / 16) :: ((d1 % 16) * 16 + d2 / 4) :: ((d2 % 4) * 64 + out) :: bs)
      | _ => decodeLoop (si + 1) (dbuf ++ [out]) rest
    | none =>
      if isNewline c then decodeLoop (si + 1) dbuf rest
      else if c ≠ '=' then .error (.corruptInput si)
      else
        match dbuf with
        | [d0, d1] =>
          match (skipNewlines (si + 1) rest).2 with
          | [] => .error (.corruptInput (skipNewlines (si + 1) rest).1)
          | p :: rest2 =>
            if p ≠ '=' then .error (.corruptInput ((skipNewlines (si + 1) rest).1 - 1))
            else finishPadding ((skipNewlines (si + 1) rest).1 + 1) rest2 [d0 * 4 + d1 / 16]
        | [d0, d1, d2] =>
          finishPadding (si + 1) rest [d0 * 4 + d1 / 16, (d1 % 16) * 16 + d2 / 4]
        | _ => .error (.corruptInput si)

/-- Decoding of a string as Go's `base64.StdEncoding.DecodeString` does it;
of a failed call only the error is kept. -/
def stdDecode (s : String) : Except GoError Bytes := decodeLoop 0 [] s.data

/-- The bytes of an ASCII text. -/
def asciiBytes (s : String) : Bytes := s.data.map Char.toNat

/-- The byte list `hay` contains the byte list `needle`. -/
def containsBytes (needle : Bytes) : Bytes → Bool
  | [] => needle.isEmpty
  | b :: bs => needle.isPrefixOf (b :: bs) || containsBytes needle bs

/-- The credential an example `ApplyURI` reads from a connection string: with
`user:password@` after `mongodb://` (cut at the first `@`, then at the first
`:`), that user and password; without an `@`, or with nothing before it, none. -/
def exampleCredential (uri : String) : Option Credential :=
  if "mongodb://".data.isPrefixOf uri.data then
    if (uri.data.drop 10).contains '@' then
      if (splitFirst '@' (uri.data.drop 10)).1 = [] then none
      else
        some
          { Username := ⟨(splitFirst ':' (splitFirst '@' (uri.data.drop 10)).1).1⟩,
            Password := ⟨(splitFirst ':' (splitFirst '@' (uri.data.drop 10)).1).2⟩ }
    else none
  else none

/-- The TLS configuration an example `ApplyURI` makes for a connection string:
one without a pool when the text after the first `?` has the parameter
`tls=true`, none otherwise. -/
def exampleTLS (uri : String) : Option (TLSConfig (List Bytes)) :=
  if ("tls", "true") ∈ parseQuery ⟨(splitFirst '?' uri.data).2⟩ then some { RootCAs := none }
  else none

/-- An instance of `Lib` for evaluating examples.
`DecodeString` is `stdDecode`.
The certificate pool keeps the PEM texts given to it; `AppendCertsFromPEM`
reports failure for a text without the line `-----BEGIN CERTIFICATE-----`, as
`x509` does, and takes every other text without parsing the certificate, which
`x509` does not.
`ApplyURI` reads `user:password@` and `tls=true` from the string as the driver
does; it does not decode percent escapes, reads no other parameter and keeps no
error for a string the driver refuses.
`Connect` wraps the options it is given. -/
def exampleLib : Lib (List Bytes) (Option (ClientOptions (List Bytes))) Unit where
  DecodeString := stdDecode
  NewCertPool := []
  AppendCertsFromPEM pool pem :=
    if containsBytes (asciiBytes "-----BEGIN CERTIFICATE-----") pem then (pool ++ [pem], true)
    else (pool, false)
  ApplyURI uri := { appliedURI := uri, Auth := exampleCredential uri, TLSConfig := exampleTLS uri }
  Connect _ opts := (some opts, none)

/-! ## Strings and the accumulation loop -/

theorem sliceFrom1_amp (s : String) : sliceFrom1 ("&" ++ s) = s := by
  apply String.ext
  simp [sliceFrom1]

theorem rangeParams_acc (enum : Params) (acc : String) :
    rangeParams enum acc = acc ++ rangeParams enum "" := by
  induction enum generalizing acc with
  | nil => simp [rangeParams]
  | cons e es ih =>
    have h1 : rangeParams (e :: es) acc =
        rangeParams es (acc ++ ("&" ++ e.1 ++ "=" ++ e.2)) := rfl
    have h2 : rangeParams (e :: es) "" =
        rangeParams es ("" ++ ("&" ++ e.1 ++ "=" ++ e.2)) := rfl
    rw [h1, h2, ih (acc ++ ("&" ++ e.1 ++ "=" ++ e.2)),
      ih ("" ++ ("&" ++ e.1 ++ "=" ++ e.2))]
    simp [String.append_assoc]

theorem rangeParams_cons (e : String × String) (es : Params) :
    rangeParams (e :: es) "" = "&" ++ (e.1 ++ "=" ++ e.2 ++ rangeParams es "") := by
  have h : rangeParams (e :: es) "" =
      rangeParams es ("" ++ ("&" ++ e.1 ++ "=" ++ e.2)) := rfl
  rw [h, rangeParams_acc]
  simp [String.append_assoc]

theorem rangeParams_append (l₁ l₂ : Params) :
    rangeParams (l₁ ++ l₂) "" = rangeParams l₁ "" ++ rangeParams l₂ "" := by
  have h : rangeParams (l₁ ++ l₂) "" = rangeParams l₂ (rangeParams l₁ "") := by
    simp [rangeParams, List.foldl_append]
  rw [h, rangeParams_acc]

theorem foldl_append_init (xs : List String) (init : String) :
    List.foldl (fun r s => r ++ s) init xs = init ++ List.foldl (fun r s => r ++ s) "" xs := by
  induction xs generalizing init with
  | nil => simp
  | cons x xs ih =>
    simp only [List.foldl_cons]
    rw [ih (init ++ x), ih ("" ++ x)]
    simp [String.append_assoc]

theorem join_cons (x : String) (xs : List String) :
    String.join (x :: xs) = x ++ String.join xs := by
  simp only [String.join, List.foldl_cons]
  rw [foldl_append_init]
  simp

theorem intercalate_go (acc sep : String) (l : List String) :
    String.intercalate.go acc sep l = acc ++ String.join (l.map fun a => sep ++ a) := by
  induction l generalizing acc with
  | nil => simp [String.intercalate.go, String.join]
  | cons a as ih =>
    simp only [String.intercalate.go, List.map_cons]
    rw [ih, join_cons]
    simp [String.append_assoc]

theorem rangeParams_eq_join (enum : Params) :
    rangeParams enum "" =
      String.join ((enum.map fun e => e.1 ++ "=" ++ e.2).map fun a => "&" ++ a) := by
  induction enum with
  | nil => rfl
  | cons e es ih =>
    rw [rangeParams_cons, ih]
    simp [join_cons, String.append_assoc]

theorem sliceFrom1_rangeParams (enum : Params) (hne : enum ≠ []) :
    sliceFrom1 (rangeParams enum "") = queryOf enum := by
  cases enum with
  | nil => exact absurd rfl hne
  | cons e es =>
    rw [rangeParams_cons, sliceFrom1_amp, rangeParams_eq_join]
    simp [queryOf, String.intercalate, intercalate_go, String.append_assoc]

/-! ## The connection string -/

theorem uri_eq_base (b : builder Pool) (enum : Params) (h : b.params = []) :
    b.uri enum = b.base := by
  simp [builder.uri, h]

theorem uri_eq_query (b : builder Pool) (enum : Params) (h : b.params ≠ []) :
    b.uri enum = b.base ++ "/?" ++ sliceFrom1 (rangeParams enum "") := by
  have hlen : b.params.length > 0 := List.length_pos.mpr h
  simp [builder.uri, hlen]

theorem append_right_cancel (x y z : String) (h : x ++ z = y ++ z) : x = y := by
  apply String.ext
  have h2 := congrArg String.data h
  simp only [String.data_append] at h2
  exact List.append_cancel_right h2

theorem perm_ne_nil (enum m : Params) (hperm : enum.Perm m) (hne : m ≠ []) : enum ≠ [] := by
  intro h
  subst h
  exact hne (List.nil_perm.mp hperm)

/-- C1: on a builder with a non-empty parameter mapping, for the order `enum`
in which the entries are visited (each entry once), `uri` returns
`mongodb://host:port/?Q` where `Q` is the strings `k=v` of the entries in that
order joined by a single `&`; the loop accumulates `&Q`, and the slice `[1:]`
removes exactly that leading `&`. -/
theorem uri_of_nonempty_params (b : builder Pool) (enum : Params)
    (henum : enum.Perm b.params) (hne : b.params ≠ []) :
    b.uri enum = "mongodb://" ++ b.host ++ ":" ++ b.port ++ "/?" ++
        String.intercalate "&" (enum.map fun e => e.1 ++ "=" ++ e.2) ∧
      rangeParams enum "" = "&" ++ String.intercalate "&" (enum.map fun e => e.1 ++ "=" ++ e.2) ∧
      (enum.map fun e => e.1 ++ "=" ++ e.2).length = b.params.length := by
  have hen : enum ≠ [] := perm_ne_nil enum b.params henum hne
  have hq := sliceFrom1_rangeParams enum hen
  refine ⟨?_, ?_, ?_⟩
  · rw [uri_eq_query b enum hne, hq]
    rfl
  · cases enum with
    | nil => exact absurd rfl hen
    | cons e es =>
      rw [rangeParams_cons] at hq ⊢
      rw [sliceFrom1_amp] at hq
      rw [hq]
      rfl
  · rw [List.length_map]
    exact henum.length_eq

theorem beforeFirstSep_of_not_contains (l : List Char) (h : containsSep l = false) :
    beforeFirstSep l = l := by
  induction l with
  | nil => rfl
  | cons c cs ih =>
    simp only [containsSep, Bool.or_eq_false_iff] at h
    simp only [beforeFirstSep, h.1, Bool.false_eq_true, if_false, ih h.2]

theorem beforeFirstSep_append_sep (l rest : List Char) (h : containsSep l = false) :
    beforeFirstSep (l ++ '/' :: '?' :: rest) = l := by
  induction l with
  | nil => rfl
  | cons c cs ih =>
    simp only [containsSep, Bool.or_eq_false_iff] at h
    have hs : startsWithSep (c :: (cs ++ '/' :: '?' :: rest)) = false := by
      cases cs with
      | nil =>
        have hq : ('/' == '?') = false := by decide
        simp [startsWithSep, hq]
      | cons d ds => exact h.1
    have hstep : beforeFirstSep (c :: (cs ++ '/' :: '?' :: rest)) =
        if startsWithSep (c :: (cs ++ '/' :: '?' :: rest)) then []
        else c :: beforeFirstSep (cs ++ '/' :: '?' :: rest) := rfl
    rw [List.cons_append, hstep, hs, ih h.2]
    rfl

theorem beforeFirstSep_length (l rest : List Char) (h : containsSep l = true) :
    (beforeFirstSep (l ++ rest)).length < l.length := by
  induction l with
  | nil => simp [containsSep] at h
  | cons c cs ih =>
    have hstep : beforeFirstSep (c :: (cs ++ rest)) =
        if startsWithSep (c :: (cs ++ rest)) then []
        else c :: beforeFirstSep (cs ++ rest) := rfl
    rw [List.cons_append, hstep]
    by_cases hs : startsWithSep (c :: (cs ++ rest)) = true
    · simp [hs]
    · have hs2 : startsWithSep (c :: cs) = false := by
        cases cs with
        | nil => rfl
        | cons d ds =>
          have h3 : startsWithSep (c :: (d :: ds ++ rest)) = startsWithSep (c :: d :: ds) := rfl
          rw [h3] at hs
          simpa using hs
      have hc : containsSep cs = true := by
        simpa [containsSep, hs2] using h
      simp only [hs, if_false, List.length_cons, Bool.false_eq_true]
      exact Nat.succ_lt_succ (ih hc)

theorem uri_data (b : builder Pool) (enum : Params) :
    ∃ rest : List Char, (b.uri enum).data = b.base.data ++ rest ∧
      ((b.params = [] ∧ rest = []) ∨
        (b.params ≠ [] ∧ rest = '/' :: '?' :: (sliceFrom1 (rangeParams enum "")).data)) := by
  by_cases h : b.params = []
  · exact ⟨[], by rw [uri_eq_base b enum h, List.append_nil], Or.inl ⟨h, rfl⟩⟩
  · refine ⟨'/' :: '?' :: (sliceFrom1 (rangeParams enum "")).data, ?_, Or.inr ⟨h, rfl⟩⟩
    rw [uri_eq_query b enum h]
    simp only [String.data_append, List.append_assoc]
    rfl

/-- C6, as amended: for every builder and every order of its entries, the part
of the string `uri` returns that precedes the first `/?` of that string (the
whole string when it has none) equals `mongodb://host:port` exactly when `/?`
does not occur in the text `mongodb://host:port` itself; in particular it does
for all host and port strings that leave that text free of `/?`, whatever the
mapping holds. -/
theorem uri_before_first_separator (b : builder Pool) (enum : Params) :
    beforeQuerySeparator (b.uri enum) = "mongodb://" ++ b.host ++ ":" ++ b.port ↔
      containsSep ("mongodb://" ++ b.host ++ ":" ++ b.port).data = false := by
  obtain ⟨rest, hdata, hrest⟩ := uri_data b enum
  have hbase : b.base = "mongodb://" ++ b.host ++ ":" ++ b.port := rfl
  rw [← hbase]
  constructor
  · intro h
    cases hc : containsSep b.base.data with
    | false => rfl
    | true =>
      have hlen := beforeFirstSep_length b.base.data rest hc
      have hd := congrArg String.data h
      simp only [beforeQuerySeparator, hdata] at hd
      rw [hd] at hlen
      exact absurd hlen (Nat.lt_irrefl _)
  · intro h
    apply String.ext
    simp only [beforeQuerySeparator, hdata]
    rcases hrest with ⟨-, hr⟩ | ⟨-, hr⟩
    · rw [hr, List.append_nil]
      exact beforeFirstSep_of_not_contains _ h
    · rw [hr]
      exact beforeFirstSep_append_sep _ _ h

/-- C7: a builder fresh from `NewBuilder` has an empty parameter mapping, and
`uri` returns exactly `mongodb://host:port` for it: no `/?` and query text is
appended. -/
theorem uri_of_new_builder (host port username password : String) (enum : Params) :
    (NewBuilder host port username password : builder Pool).params = [] ∧
      (NewBuilder host port username password : builder Pool).uri enum =
        "mongodb://" ++ host ++ ":" ++ port ∧
      ¬ ∃ q : String, (NewBuilder host port username password : builder Pool).uri enum =
        "mongodb://" ++ host ++ ":" ++ port ++ "/?" ++ q := by
  refine ⟨rfl, rfl, ?_⟩
  rintro ⟨q, hq⟩
  have hlen := congrArg String.length hq
  have hbase : (NewBuilder host port username password : builder Pool).uri enum =
      "mongodb://" ++ host ++ ":" ++ port := rfl
  rw [hbase] at hlen
  simp only [String.length_append] at hlen
  have h2 : ("/?" : String).length = 2 := rfl
  omega

/-! ## The parameter mapping under the chain calls -/

theorem Params.get_set_self (m : Params) (k v : String) : (m.set k v).get k = some v := by
  simp [Params.get, Params.set]

theorem Params.lookup_filter_ne (m : Params) (k j : String) (h : j ≠ k) :
    List.lookup j (m.filter fun e => e.1 != k) = List.lookup j m := by
  induction m with
  | nil => rfl
  | cons e es ih =>
    obtain ⟨a, x⟩ := e
    by_cases hak : a = k
    · subst hak
      have hja : (j == a) = false := by simpa using h
      simp [List.lookup_cons, hja, ih]
    · have hne : (a != k) = true := by simpa using hak
      simp only [List.filter_cons, hne, if_true, List.lookup_cons, ih]

theorem Params.get_set_ne (m : Params) (k v j : String) (h : j ≠ k) :
    (m.set k v).get j = m.get j := by
  have hjk : (j == k) = false := by simpa using h
  simp only [Params.get, Params.set, List.lookup_cons, hjk]
  exact Params.lookup_filter_ne m k j h

theorem Params.mem_set (m : Params) (k v : String) (e : String × String) :
    e ∈ m.set k v ↔ e = (k, v) ∨ (e ∈ m ∧ e.1 ≠ k) := by
  simp [Params.set]

theorem Params.set_set (m : Params) (k v w : String) :
    (m.set k v).set k w = m.set k w := by
  simp [Params.set, List.filter_cons, List.filter_filter]

theorem Params.wf_set (m : Params) (k v : String) (h : m.WF) : (m.set k v).WF := by
  unfold Params.WF at h ⊢
  simp only [Params.set, List.map_cons, List.nodup_cons]
  refine ⟨?_, ?_⟩
  · intro hk
    obtain ⟨e, he, hek⟩ := List.mem_map.mp hk
    have := (List.mem_filter.mp he).2
    simp [hek] at this
  · exact List.Nodup.sublist (List.Sublist.map _ (List.filter_sublist _)) h

theorem chain_nil (b : builder Pool) : b.chain [] = b := rfl

theorem chain_cons (b : builder Pool) (c : Call) (cs : List Call) :
    b.chain (c :: cs) = (b.call c).chain cs := rfl

theorem chain_append (b : builder Pool) (cs ds : List Call) :
    b.chain (cs ++ ds) = (b.chain cs).chain ds := by
  simp [builder.chain, List.foldl_append]

theorem call_fields (b : builder Pool) (c : Call) :
    (b.call c).host = b.host ∧ (b.call c).port = b.port ∧
      (b.call c).username = b.username ∧ (b.call c).password = b.password ∧
      (b.call c).options = b.options := by
  cases c <;> exact ⟨rfl, rfl, rfl, rfl, rfl⟩

theorem chain_fields (b : builder Pool) (cs : List Call) :
    (b.chain cs).host = b.host ∧ (b.chain cs).port = b.port ∧
      (b.chain cs).username = b.username ∧ (b.chain cs).password = b.password ∧
      (b.chain cs).options = b.options := by
  induction cs generalizing b with
  | nil => exact ⟨rfl, rfl, rfl, rfl, rfl⟩
  | cons c cs ih =>
    rw [chain_cons]
    obtain ⟨h1, h2, h3, h4, h5⟩ := ih (b.call c)
    obtain ⟨g1, g2, g3, g4, g5⟩ := call_fields b c
    exact ⟨h1.trans g1, h2.trans g2, h3.trans g3, h4.trans g4, h5.trans g5⟩

theorem chain_wf (b : builder Pool) (cs : List Call) (h : b.params.WF) :
    (b.chain cs).params.WF := by
  induction cs generalizing b with
  | nil => exact h
  | cons c cs ih =>
    rw [chain_cons]
    apply ih
    cases c
    · exact Params.wf_set _ _ _ h
    · exact Params.wf_set _ _ _ h

/-- The relation between the flag and the mapping that the chain calls keep. -/
theorem tlsInv_call (b : builder Pool) (c : Call)
    (h : (b.params.get "tls" = some "true" ↔ b.tls = true) ∧
      ∀ v, ("tls", v) ∈ b.params ↔ (v = "true" ∧ b.tls = true)) :
    ((b.call c).params.get "tls" = some "true" ↔ (b.call c).tls = true) ∧
      ∀ v, ("tls", v) ∈ (b.call c).params ↔ (v = "true" ∧ (b.call c).tls = true) := by
  cases c with
  | WithTLS ca =>
    refine ⟨?_, ?_⟩
    · simp [builder.call, builder.WithTLS, Params.get_set_self]
    · intro v
      simp [builder.call, builder.WithTLS, Params.mem_set]
  | WithRetryWrites value =>
    have hne : ("tls" : String) ≠ "retryWrites" := by decide
    refine ⟨?_, ?_⟩
    · simp only [builder.call, builder.WithRetryWrites, Params.get_set_ne _ _ _ _ hne]
      exact h.1
    · intro v
      simp only [builder.call, builder.WithRetryWrites, Params.mem_set]
      rw [← h.2 v]
      constructor
      · rintro (h1 | h1)
        · exact absurd (congrArg Prod.fst h1) hne
        · exact h1.1
      · intro h1
        exact Or.inr ⟨h1, hne⟩

theorem tlsInv_chain (b : builder Pool) (cs : List Call)
    (h : (b.params.get "tls" = some "true" ↔ b.tls = true) ∧
      ∀ v, ("tls", v) ∈ b.params ↔ (v = "true" ∧ b.tls = true)) :
    ((b.chain cs).params.get "tls" = some "true" ↔ (b.chain cs).tls = true) ∧
      ∀ v, ("tls", v) ∈ (b.chain cs).params ↔ (v = "true" ∧ (b.chain cs).tls = true) := by
  induction cs generalizing b with
  | nil => exact h
  | cons c cs ih =>
    rw [chain_cons]
    exact ih (b.call c) (tlsInv_call b c h)

theorem tlsInv_new (host port username password : String) :
    ((NewBuilder host port username password : builder Pool).params.get "tls" = some "true" ↔
        (NewBuilder host port username password : builder Pool).tls = true) ∧
      ∀ v, ("tls", v) ∈ (NewBuilder host port username password : builder Pool).params ↔
        (v = "true" ∧ (NewBuilder host port username password : builder Pool).tls = true) := by
  simp [NewBuilder, Params.get]

theorem tls_flag_chain (b : builder Pool) (cs : List Call) (h : b.tls = true) :
    (b.chain cs).tls = true := by
  induction cs generalizing b with
  | nil => exact h
  | cons c cs ih =>
    rw [chain_cons]
    apply ih
    cases c
    · rfl
    · exact h

/-- C2: in every state reached from `NewBuilder` by a sequence of `WithTLS` and
`WithRetryWrites` calls, the mapping holds `"tls" = "true"` exactly when the TLS
flag is set (as a lookup and as an entry, and `"tls"` never maps to anything
else); and once `WithTLS` occurs in the sequence, whatever precedes or follows
it, the flag is set and `"tls"` maps to `"true"`. -/
theorem tls_param_iff_tls_flag (host port username password ca : String)
    (calls before after : List Call) :
    (((NewBuilder host port username password : builder Pool).chain calls).params.get "tls" =
          some "true" ↔
        ((NewBuilder host port username password : builder Pool).chain calls).tls = true) ∧
      (("tls", "true") ∈ ((NewBuilder host port username password : builder Pool).chain calls).params ↔
        ((NewBuilder host port username password : builder Pool).chain calls).tls = true) ∧
      (∀ v, ("tls", v) ∈ ((NewBuilder host port username password : builder Pool).chain calls).params →
        v = "true") ∧
      ((NewBuilder host port username password : builder Pool).chain
          (before ++ Call.WithTLS ca :: after)).tls = true ∧
      ((NewBuilder host port username password : builder Pool).chain
          (before ++ Call.WithTLS ca :: after)).params.get "tls" = some "true" ∧
      ("tls", "true") ∈ ((NewBuilder host port username password : builder Pool).chain
          (before ++ Call.WithTLS ca :: after)).params := by
  have hinv := tlsInv_chain (NewBuilder host port username password : builder Pool) calls
    (tlsInv_new host port username password)
  have hinv2 := tlsInv_chain (NewBuilder host port username password : builder Pool)
    (before ++ Call.WithTLS ca :: after) (tlsInv_new host port username password)
  have hflag : ((NewBuilder host port username password : builder Pool).chain
      (before ++ Call.WithTLS ca :: after)).tls = true := by
    rw [chain_append, chain_cons]
    exact tls_flag_chain _ _ rfl
  refine ⟨hinv.1, ?_, ?_, hflag, hinv2.1.mpr hflag, ?_⟩
  · rw [hinv.2 "true"]
    simp
  · intro v hv
    exact ((hinv.2 v).mp hv).1
  · exact (hinv2.2 "true").mpr ⟨rfl, hflag⟩

/-! ## `retryWrites` in the query section -/

theorem retryWrites_mem_chain (b : builder Pool) (v : String) (cs : List Call)
    (hcs : ∀ c ∈ cs, c.isRetryWrites = false) (h : ("retryWrites", v) ∈ b.params) :
    ("retryWrites", v) ∈ (b.chain cs).params := by
  induction cs generalizing b with
  | nil => exact h
  | cons c cs ih =>
    rw [chain_cons]
    apply ih _ (fun d hd => hcs d (List.mem_cons_of_mem _ hd))
    cases c with
    | WithTLS ca =>
      have hne : ("retryWrites" : String) ≠ "tls" := by decide
      exact (Params.mem_set _ _ _ _).mpr (Or.inr ⟨h, hne⟩)
    | WithRetryWrites value =>
      have := hcs (Call.WithRetryWrites value) (List.mem_cons_self _ _)
      simp [Call.isRetryWrites] at this

theorem rangeParams_head (l : Params) :
    rangeParams l "" = "" ∨ ∃ y, rangeParams l "" = "&" ++ y := by
  cases l with
  | nil => exact Or.inl rfl
  | cons e es => exact Or.inr ⟨_, rangeParams_cons e es⟩

theorem query_split (enum : Params) (e : String × String) (he : e ∈ enum) :
    ∃ before after : String,
      sliceFrom1 (rangeParams enum "") = before ++ (e.1 ++ "=" ++ e.2) ++ after ∧
      (before = "" ∨ ∃ x, before = x ++ "&") ∧ (after = "" ∨ ∃ y, after = "&" ++ y) := by
  obtain ⟨l₁, l₂, rfl⟩ := List.append_of_mem he
  refine ⟨sliceFrom1 (rangeParams l₁ "" ++ "&"), rangeParams l₂ "", ?_, ?_, rangeParams_head l₂⟩
  · rw [rangeParams_append, rangeParams_cons]
    cases l₁ with
    | nil =>
      have h0 : rangeParams [] "" = "" := rfl
      have hs : sliceFrom1 "&" = "" := rfl
      rw [h0, String.empty_append, String.empty_append, sliceFrom1_amp, hs]
      simp [String.append_assoc]
    | cons a as =>
      rw [rangeParams_cons]
      simp only [String.append_assoc, sliceFrom1_amp]
  · cases l₁ with
    | nil =>
      left
      have h0 : rangeParams [] "" = "" := rfl
      rw [h0, String.empty_append]
      rfl
    | cons a as =>
      right
      rw [rangeParams_cons]
      exact ⟨a.1 ++ "=" ++ a.2 ++ rangeParams as "", by
        simp only [String.append_assoc, sliceFrom1_amp]⟩

/-- C8: when `WithRetryWrites(v)` is the last `WithRetryWrites` call of the
chain (any calls before it, only `WithTLS` calls after it), then for every
order `enum` of the entries the string `uri` returns is
`mongodb://host:port/?` followed by a text that holds `retryWrites=` and `v`
verbatim, as a whole parameter: at the start or after a `&`, and at the end or
before a `&`. -/
theorem retryWrites_in_query_section (host port username password v : String)
    (before after : List Call) (enum : Params)
    (hafter : ∀ c ∈ after, c.isRetryWrites = false)
    (henum : enum.Perm
      ((((NewBuilder host port username password : builder Pool).chain before).WithRetryWrites
        v).chain after).params) :
    ∃ l r : String,
      ((((NewBuilder host port username password : builder Pool).chain before).WithRetryWrites
          v).chain after).uri enum =
        "mongodb://" ++ host ++ ":" ++ port ++ "/?" ++ l ++ ("retryWrites=" ++ v) ++ r ∧
      (l = "" ∨ ∃ x, l = x ++ "&") ∧ (r = "" ∨ ∃ y, r = "&" ++ y) := by
  have hmem : ("retryWrites", v) ∈
      ((((NewBuilder host port username password : builder Pool).chain before).WithRetryWrites
        v).chain after).params :=
    retryWrites_mem_chain _ v after hafter ((Params.mem_set _ _ _ _).mpr (Or.inl rfl))
  have hne : ((((NewBuilder host port username password : builder Pool).chain
      before).WithRetryWrites v).chain after).params ≠ [] := List.ne_nil_of_mem hmem
  obtain ⟨l, r, hq, hl, hr⟩ := query_split enum ("retryWrites", v) (henum.mem_iff.mpr hmem)
  refine ⟨l, r, ?_, hl, hr⟩
  rw [uri_eq_query _ enum hne, hq]
  have hf := chain_fields
    (((NewBuilder host port username password : builder Pool).chain before).WithRetryWrites v)
    after
  have hg := chain_fields (NewBuilder host port username password : builder Pool) before
  have hbase : ((((NewBuilder host port username password : builder Pool).chain
      before).WithRetryWrites v).chain after).base = "mongodb://" ++ host ++ ":" ++ port := by
    unfold builder.base
    rw [hf.1, hf.2.1]
    show "mongodb://" ++ ((NewBuilder host port username password : builder Pool).chain
      before).host ++ ":" ++ ((NewBuilder host port username password : builder Pool).chain
      before).port = _
    rw [hg.1, hg.2.1]
    rfl
  rw [hbase]
  simp [String.append_assoc]

/-! ## Calling `WithTLS` twice -/

/-- C9: `WithTLS(ca1)` followed by `WithTLS(ca2)` leaves the builder in the
state `WithTLS(ca2)` alone gives; the stored certificate is `ca2`; and
`getTLSConfig` returns the same for any two builders whose last `WithTLS` call
had the argument `ca2`, whatever the earlier certificate was. -/
theorem withTLS_last_write_wins (L : Lib Pool Client Ctx) (b c : builder Pool)
    (ca1 ca2 ca3 : String) :
    (b.WithTLS ca1).WithTLS ca2 = b.WithTLS ca2 ∧
      ((b.WithTLS ca1).WithTLS ca2).ca = ca2 ∧
      ((b.WithTLS ca1).WithTLS ca2).getTLSConfig L = (b.WithTLS ca2).getTLSConfig L ∧
      ((b.WithTLS ca1).WithTLS ca2).getTLSConfig L =
        ((c.WithTLS ca3).WithTLS ca2).getTLSConfig L := by
  have h : (b.WithTLS ca1).WithTLS ca2 = b.WithTLS ca2 := by
    simp [builder.WithTLS, Params.set_set]
  exact ⟨h, rfl, by rw [h], rfl⟩

/-! ## The authentication step -/

theorem setOptionAuth_after_uri (L : Lib Pool Client Ctx) (b : builder Pool) (enum : Params) :
    ∃ b1 o, (b.setOptionURI L enum).setOptionAuth = some b1 ∧ b1.options = some o ∧
      b1.tls = b.tls ∧ b1.ca = b.ca ∧
      (o = if b.username ≠ "" ∧ b.password ≠ "" then
        (L.ApplyURI (b.uri enum)).SetAuth (Credential.mk b.username b.password)
        else L.ApplyURI (b.uri enum)) ∧
      o.Auth = if b.username ≠ "" ∧ b.password ≠ "" then
        some (Credential.mk b.username b.password) else (L.ApplyURI (b.uri enum)).Auth := by
  by_cases h : b.username ≠ "" ∧ b.password ≠ ""
  · refine ⟨{ b with options := some ((L.ApplyURI (b.uri enum)).SetAuth
        (Credential.mk b.username b.password)) },
      (L.ApplyURI (b.uri enum)).SetAuth (Credential.mk b.username b.password),
      ?_, rfl, rfl, rfl, ?_, ?_⟩
    · simp only [builder.setOptionAuth, builder.setOptionURI, h, and_self, if_true,
        ne_eq, not_false_eq_true]
    · simp only [h, and_self, if_true, ne_eq, not_false_eq_true]
    · simp [ClientOptions.SetAuth, h]
  · refine ⟨b.setOptionURI L enum, L.ApplyURI (b.uri enum),
      ?_, rfl, rfl, rfl, ?_, ?_⟩
    · simp only [builder.setOptionAuth, builder.setOptionURI, h, if_false]
    · simp only [h, if_false]
    · simp only [h, if_false]

theorem getTLSConfig_congr (L : Lib Pool Client Ctx) (b c : builder Pool) (h : b.ca = c.ca) :
    b.getTLSConfig L = c.getTLSConfig L := by
  unfold builder.getTLSConfig
  rw [h]

theorem getClient_no_tls (L : Lib Pool Client Ctx) (b : builder Pool) (ctx : Ctx)
    (enum : Params) (htls : b.tls = false) :
    ∃ b1 o, (b.setOptionURI L enum).setOptionAuth = some b1 ∧ b1.options = some o ∧
      b.GetClient L ctx enum = some
        { client := (L.Connect ctx (some o)).1, err := (L.Connect ctx (some o)).2,
          connectCalls := [some o], final := b1 } := by
  obtain ⟨b1, o, h1, h2, h3, -, -, -⟩ := setOptionAuth_after_uri L b enum
  refine ⟨b1, o, h1, h2, ?_⟩
  have ht : b1.tls = false := h3.trans htls
  simp only [builder.GetClient, h1, ht, h2]
  rfl

theorem getClient_tls_error (L : Lib Pool Client Ctx) (b : builder Pool) (ctx : Ctx)
    (enum : Params) (err : GoError) (htls : b.tls = true)
    (herr : b.getTLSConfig L = .error err) :
    ∃ b1, (b.setOptionURI L enum).setOptionAuth = some b1 ∧
      b.GetClient L ctx enum = some
        { client := none, err := some err, connectCalls := [], final := b1 } := by
  obtain ⟨b1, o, h1, h2, h3, h4, -, -⟩ := setOptionAuth_after_uri L b enum
  refine ⟨b1, h1, ?_⟩
  have ht : b1.tls = true := h3.trans htls
  have hcfg : b1.getTLSConfig L = .error err := (getTLSConfig_congr L b1 b h4).trans herr
  simp only [builder.GetClient, h1, ht, builder.setOptionTLS, hcfg, if_true]

theorem getClient_tls_ok (L : Lib Pool Client Ctx) (b : builder Pool) (ctx : Ctx)
    (enum : Params) (cfg : TLSConfig Pool) (htls : b.tls = true)
    (hok : b.getTLSConfig L = .ok cfg) :
    ∃ b1 o, (b.setOptionURI L enum).setOptionAuth = some b1 ∧ b1.options = some o ∧
      b.GetClient L ctx enum = some
        { client := (L.Connect ctx (some (o.SetTLSConfig cfg))).1,
          err := (L.Connect ctx (some (o.SetTLSConfig cfg))).2,
          connectCalls := [some (o.SetTLSConfig cfg)],
          final := { b1 with options := some (o.SetTLSConfig cfg) } } := by
  obtain ⟨b1, o, h1, h2, h3, h4, -, -⟩ := setOptionAuth_after_uri L b enum
  refine ⟨b1, o, h1, h2, ?_⟩
  have ht : b1.tls = true := h3.trans htls
  have hcfg : b1.getTLSConfig L = .ok cfg := (getTLSConfig_congr L b1 b h4).trans hok
  simp only [builder.GetClient, h1, ht, builder.setOptionTLS, hcfg, h2, if_true]

/-- C3, as amended: after `setOptionURI`, the step `setOptionAuth` returns (it
does not panic). When both `username` and `password` are non-empty it puts
exactly that pair into the options object as its credential, over whatever
`ApplyURI` had put there; when either is empty it leaves the object exactly as
`ApplyURI` made it, so the object carries the credential the driver read from
the connection string, if any. When `ApplyURI` gives no credential, the object
has one exactly when both are non-empty. `GetClient` runs these steps, never
panics, and the object it ends with (and hands to `mongo.Connect`, if it gets
that far) has that same credential. -/
theorem setOptionAuth_sets_or_keeps_credential (L : Lib Pool Client Ctx) (b : builder Pool)
    (ctx : Ctx) (enum : Params) :
    (∃ b1 o, (b.setOptionURI L enum).setOptionAuth = some b1 ∧ b1.options = some o ∧
        (o = if b.username ≠ "" ∧ b.password ≠ "" then
          (L.ApplyURI (b.uri enum)).SetAuth (Credential.mk b.username b.password)
          else L.ApplyURI (b.uri enum)) ∧
        (o.Auth = if b.username ≠ "" ∧ b.password ≠ "" then
          some (Credential.mk b.username b.password) else (L.ApplyURI (b.uri enum)).Auth) ∧
        ((L.ApplyURI (b.uri enum)).Auth = none →
          (o.Auth.isSome = true ↔ (b.username ≠ "" ∧ b.password ≠ "")))) ∧
      ∃ r o, b.GetClient L ctx enum = some r ∧ r.final.options = some o ∧
        (o.Auth = if b.username ≠ "" ∧ b.password ≠ "" then
          some (Credential.mk b.username b.password) else (L.ApplyURI (b.uri enum)).Auth) ∧
        (r.connectCalls = [] ∨ r.connectCalls = [some o]) := by
  obtain ⟨b1, o, h1, h2, h3, h4, h6, h5⟩ := setOptionAuth_after_uri L b enum
  refine ⟨⟨b1, o, h1, h2, h6, h5, ?_⟩, ?_⟩
  · intro hnone
    rw [h5]
    by_cases h : b.username ≠ "" ∧ b.password ≠ "" <;> simp [h, hnone]
  · cases htls : b.tls with
    | false =>
      obtain ⟨c1, p, g1, g2, g3⟩ := getClient_no_tls L b ctx enum htls
      have hc : c1 = b1 := Option.some.inj (g1.symm.trans h1)
      subst hc
      have hp : p = o := Option.some.inj (g2.symm.trans h2)
      subst hp
      exact ⟨_, p, g3, g2, h5, Or.inr rfl⟩
    | true =>
      cases hcfg : b.getTLSConfig L with
      | error err =>
        obtain ⟨c1, g1, g3⟩ := getClient_tls_error L b ctx enum err htls hcfg
        have hc : c1 = b1 := Option.some.inj (g1.symm.trans h1)
        subst hc
        exact ⟨_, o, g3, h2, h5, Or.inl rfl⟩
      | ok cfg =>
        obtain ⟨c1, p, g1, g2, g3⟩ := getClient_tls_ok L b ctx enum cfg htls hcfg
        have hc : c1 = b1 := Option.some.inj (g1.symm.trans h1)
        subst hc
        have hp : p = o := Option.some.inj (g2.symm.trans h2)
        subst hp
        exact ⟨_, p.SetTLSConfig cfg, g3, rfl, h5, Or.inr rfl⟩

/-! ## Failures of the TLS step -/

theorem chain_tls_ca (b : builder Pool) (cs : List Call) (h : ∀ c ∈ cs, c.isTLS = false) :
    (b.chain cs).tls = b.tls ∧ (b.chain cs).ca = b.ca := by
  induction cs generalizing b with
  | nil => exact ⟨rfl, rfl⟩
  | cons c cs ih =>
    rw [chain_cons]
    obtain ⟨h1, h2⟩ := ih (b.call c) (fun d hd => h d (List.mem_cons_of_mem _ hd))
    cases c with
    | WithTLS ca =>
      have := h (Call.WithTLS ca) (List.mem_cons_self _ _)
      simp [Call.isTLS] at this
    | WithRetryWrites value => exact ⟨h1, h2⟩

/-- C4: on a builder whose last `WithTLS` call had an argument `ca` that
`base64.StdEncoding.DecodeString` rejects with the error `err`, `getTLSConfig`
fails with `err`, and `GetClient` returns `err` with a nil client and makes no
call of `mongo.Connect`. -/
theorem getClient_base64_error (L : Lib Pool Client Ctx) (b : builder Pool) (ca : String)
    (after : List Call) (ctx : Ctx) (enum : Params) (err : GoError)
    (hafter : ∀ c ∈ after, c.isTLS = false)
    (hdec : L.DecodeString ca = .error err) :
    ((b.WithTLS ca).chain after).getTLSConfig L = .error err ∧
      ∃ r, ((b.WithTLS ca).chain after).GetClient L ctx enum = some r ∧
        r.client = none ∧ r.err = some err ∧ r.connectCalls = [] := by
  obtain ⟨htls, hca⟩ := chain_tls_ca (b.WithTLS ca) after hafter
  have hcfg : ((b.WithTLS ca).chain after).getTLSConfig L = .error err := by
    unfold builder.getTLSConfig
    rw [hca]
    show (match L.DecodeString ca with
      | .error e => Except.error e
      | .ok caCert => _) = _
    rw [hdec]
  refine ⟨hcfg, ?_⟩
  obtain ⟨b1, -, g⟩ := getClient_tls_error L _ ctx enum err (htls.trans rfl) hcfg
  exact ⟨_, g, rfl, rfl, rfl⟩

/-- C5: on a builder whose last `WithTLS` call had an argument `ca` that
decodes as base64 to bytes from which `AppendCertsFromPEM` takes no certificate
(its `ok` flag is false), `getTLSConfig` and `setOptionTLS` fail with the error
whose message is exactly `failed to parse root certificate`, and `GetClient`
returns that error with a nil client and makes no call of `mongo.Connect`. -/
theorem getClient_certificate_parse_error (L : Lib Pool Client Ctx) (b : builder Pool)
    (ca : String) (after : List Call) (ctx : Ctx) (enum : Params) (caCert : Bytes)
    (hafter : ∀ c ∈ after, c.isTLS = false)
    (hdec : L.DecodeString ca = .ok caCert)
    (hpem : (L.AppendCertsFromPEM L.NewCertPool caCert).2 = false) :
    ((b.WithTLS ca).chain after).getTLSConfig L =
        .error (.errorf "failed to parse root certificate") ∧
      ((b.WithTLS ca).chain after).setOptionTLS L =
        some (.error (.errorf "failed to parse root certificate")) ∧
      (GoError.errorf "failed to parse root certificate").Error =
        "failed to parse root certificate" ∧
      ∃ r, ((b.WithTLS ca).chain after).GetClient L ctx enum = some r ∧
        r.client = none ∧ r.err = some (.errorf "failed to parse root certificate") ∧
        r.connectCalls = [] := by
  obtain ⟨htls, hca⟩ := chain_tls_ca (b.WithTLS ca) after hafter
  have hcfg : ((b.WithTLS ca).chain after).getTLSConfig L =
      .error (.errorf "failed to parse root certificate") := by
    unfold builder.getTLSConfig
    rw [hca]
    show (match L.DecodeString ca with
      | .error e => Except.error e
      | .ok caCert => _) = _
    rw [hdec]
    simp [hpem]
  refine ⟨hcfg, ?_, rfl, ?_⟩
  · simp only [builder.setOptionTLS, hcfg]
  · obtain ⟨b1, -, g⟩ := getClient_tls_error L _ ctx enum _ (htls.trans rfl) hcfg
    exact ⟨_, g, rfl, rfl, rfl⟩

/-! ## Values are written without escaping -/

theorem querySection_uri (b : builder Pool) (enum : Params) (h : b.params ≠ []) :
    b.querySection (b.uri enum) = sliceFrom1 (rangeParams enum "") := by
  rw [uri_eq_query b enum h]
  apply String.ext
  have hlen : b.base.length = b.base.data.length := rfl
  have h2 : ("/?" : String).data = [('/' : Char), '?'] := rfl
  simp only [builder.querySection, String.data_append, hlen, h2, List.append_assoc]
  rw [List.drop_append_eq_append_drop]
  simp

/-- C10: `uri` writes values as they are. With the value `false&tls=false`
given to `WithRetryWrites` on a fresh builder (any host and port), the query
section of the returned string, cut on `&` and then on the first `=`, reads as
the two pairs `retryWrites = false` and `tls = false`: the pair `tls = false`
is no entry of the builder's mapping, and there are more pairs than the mapping
has entries. -/
theorem uri_value_not_escaped :
    ∃ v : String, '&' ∈ v.data ∧ '=' ∈ v.data ∧
      ∀ (host port username password : String) (enum : Params),
        enum.Perm ((NewBuilder host port username password :
          builder Pool).WithRetryWrites v).params →
        parseQuery (((NewBuilder host port username password :
            builder Pool).WithRetryWrites v).querySection
          (((NewBuilder host port username password :
            builder Pool).WithRetryWrites v).uri enum)) =
            [("retryWrites", "false"), ("tls", "false")] ∧
          ("tls", "false") ∈ parseQuery (((NewBuilder host port username password :
            builder Pool).WithRetryWrites v).querySection
          (((NewBuilder host port username password :
            builder Pool).WithRetryWrites v).uri enum)) ∧
          ("tls", "false") ∉ ((NewBuilder host port username password :
            builder Pool).WithRetryWrites v).params ∧
          ((NewBuilder host port username password :
            builder Pool).WithRetryWrites v).params.length <
            (parseQuery (((NewBuilder host port username password :
              builder Pool).WithRetryWrites v).querySection
            (((NewBuilder host port username password :
              builder Pool).WithRetryWrites v).uri enum))).length := by
  refine ⟨"false&tls=false", by decide, by decide, ?_⟩
  intro host port username password enum henum
  have hparams : ((NewBuilder host port username password :
      builder Pool).WithRetryWrites "false&tls=false").params =
      [("retryWrites", "false&tls=false")] := rfl
  have hne : ((NewBuilder host port username password :
      builder Pool).WithRetryWrites "false&tls=false").params ≠ [] := by
    rw [hparams]
    exact List.cons_ne_nil _ _
  rw [hparams] at henum
  have henum2 : enum = [("retryWrites", "false&tls=false")] := List.perm_singleton.mp henum
  subst henum2
  have hq : parseQuery (((NewBuilder host port username password :
      builder Pool).WithRetryWrites "false&tls=false").querySection
      (((NewBuilder host port username password :
        builder Pool).WithRetryWrites "false&tls=false").uri
        [("retryWrites", "false&tls=false")])) =
      [("retryWrites", "false"), ("tls", "false")] := by
    rw [querySection_uri _ _ hne]
    decide
  rw [hq, hparams]
  refine ⟨rfl, by decide, by decide, by decide⟩

/-! ## Evaluations at concrete inputs -/

theorem uri_of_nonempty_params_example :
    [("tls", "true"), ("retryWrites", "false")].Perm
        (((NewBuilder "localhost" "27017" "" "" : builder Unit).WithTLS
          "Q0E=").WithRetryWrites "false").params ∧
      (((NewBuilder "localhost" "27017" "" "" : builder Unit).WithTLS
          "Q0E=").WithRetryWrites "false").params ≠ [] ∧
      (((NewBuilder "localhost" "27017" "" "" : builder Unit).WithTLS
          "Q0E=").WithRetryWrites "false").uri [("tls", "true"), ("retryWrites", "false")] =
        "mongodb://localhost:27017/?tls=true&retryWrites=false" :=
  ⟨List.Perm.swap _ _ _, by decide,
    (uri_of_nonempty_params
      (((NewBuilder "localhost" "27017" "" "" : builder Unit).WithTLS
        "Q0E=").WithRetryWrites "false")
      [("tls", "true"), ("retryWrites", "false")] (List.Perm.swap _ _ _) (by decide)).1.trans
      (by decide)⟩

theorem retryWrites_in_query_section_example :
    ∃ l r : String,
      ((((NewBuilder "localhost" "27017" "" "" : builder Unit).chain
          [Call.WithRetryWrites "true"]).WithRetryWrites "false").chain
          [Call.WithTLS "Q0E="]).uri [("tls", "true"), ("retryWrites", "false")] =
        "mongodb://" ++ "localhost" ++ ":" ++ "27017" ++ "/?" ++ l ++
          ("retryWrites=" ++ "false") ++ r ∧
      (l = "" ∨ ∃ x, l = x ++ "&") ∧ (r = "" ∨ ∃ y, r = "&" ++ y) :=
  retryWrites_in_query_section "localhost" "27017" "" "" "false"
    [Call.WithRetryWrites "true"] [Call.WithTLS "Q0E="]
    [("tls", "true"), ("retryWrites", "false")] (by decide) (List.Perm.refl _)

theorem getClient_base64_error_example :
    exampleLib.DecodeString "!!!" = .error (.corruptInput 0) ∧
      ∃ r, (((NewBuilder "localhost" "27017" "" "" : builder (List Bytes)).WithTLS
          "!!!").chain [Call.WithRetryWrites "false"]).GetClient exampleLib ()
          [("retryWrites", "false"), ("tls", "true")] = some r ∧
        r.client = none ∧ r.err = some (.corruptInput 0) ∧ r.connectCalls = [] :=
  ⟨rfl,
    (getClient_base64_error exampleLib (NewBuilder "localhost" "27017" "" "") "!!!"
      [Call.WithRetryWrites "false"] () [("retryWrites", "false"), ("tls", "true")]
      (.corruptInput 0) (by decide) rfl).2⟩

theorem getClient_certificate_parse_error_example :
    exampleLib.DecodeString "aGVsbG8gd29ybGQ=" = .ok (asciiBytes "hello world") ∧
      (exampleLib.AppendCertsFromPEM exampleLib.NewCertPool (asciiBytes "hello world")).2 =
        false ∧
      ∃ r, (((NewBuilder "localhost" "27017" "" "" : builder (List Bytes)).WithTLS
          "aGVsbG8gd29ybGQ=").chain [Call.WithRetryWrites "false"]).GetClient exampleLib ()
          [("retryWrites", "false"), ("tls", "true")] = some r ∧
        r.client = none ∧ r.err = some (.errorf "failed to parse root certificate") ∧
        r.connectCalls = [] :=
  ⟨rfl, by decide,
    (getClient_certificate_parse_error exampleLib (NewBuilder "localhost" "27017" "" "")
      "aGVsbG8gd29ybGQ=" [Call.WithRetryWrites "false"] ()
      [("retryWrites", "false"), ("tls", "true")] (asciiBytes "hello world")
      (by decide) rfl (by decide)).2.2.2⟩

/-- C3, counterexample: with host `bob:pw@localhost`, port `27017` and empty
username and password, the connection string is
`mongodb://bob:pw@localhost:27017`; `ApplyURI` reads the credential `bob`/`pw`
from it and `setOptionAuth` leaves the object alone, so the options object
carries a credential although username and password are both empty. -/
theorem setOptionAuth_credential_from_uri :
    (NewBuilder "bob:pw@localhost" "27017" "" "" : builder (List Bytes)).uri [] =
        "mongodb://bob:pw@localhost:27017" ∧
      ∃ b1 o,
        ((NewBuilder "bob:pw@localhost" "27017" "" "" : builder (List Bytes)).setOptionURI
          exampleLib []).setOptionAuth = some b1 ∧
        b1.options = some o ∧ o.Auth = some (Credential.mk "bob" "pw") ∧
        ¬ (o.Auth.isSome = true ↔
          ((NewBuilder "bob:pw@localhost" "27017" "" "" : builder (List Bytes)).username ≠ "" ∧
            (NewBuilder "bob:pw@localhost" "27017" "" "" : builder (List Bytes)).password ≠
              "")) := by
  refine ⟨by decide, (NewBuilder "bob:pw@localhost" "27017" "" "" :
      builder (List Bytes)).setOptionURI exampleLib [],
    exampleLib.ApplyURI "mongodb://bob:pw@localhost:27017", rfl, rfl, by decide, ?_⟩
  have h : (exampleLib.ApplyURI "mongodb://bob:pw@localhost:27017").Auth =
      some (Credential.mk "bob" "pw") := by decide
  rw [h]
  simp [NewBuilder]

/-- C6, counterexample: with host `a/?b`, port `1` and `WithRetryWrites("x")`
the string `uri` returns is `mongodb://a/?b:1/?retryWrites=x`; what precedes
its first `/?` is `mongodb://a`, not `mongodb://a/?b:1`. -/
theorem uri_before_first_separator_fails :
    ((NewBuilder "a/?b" "1" "" "" : builder Unit).WithRetryWrites "x").uri
        [("retryWrites", "x")] = "mongodb://a/?b:1/?retryWrites=x" ∧
      beforeQuerySeparator (((NewBuilder "a/?b" "1" "" "" : builder Unit).WithRetryWrites
        "x").uri [("retryWrites", "x")]) = "mongodb://a" ∧
      beforeQuerySeparator (((NewBuilder "a/?b" "1" "" "" : builder Unit).WithRetryWrites
        "x").uri [("retryWrites", "x")]) ≠ "mongodb://" ++ "a/?b" ++ ":" ++ "1" := by
  refine ⟨by decide, by decide, by decide⟩

/-- C6, example: with host `localhost`, port `27017` and the value `a/?b` for
`retryWrites`, what precedes the first `/?` is `mongodb://localhost:27017`. -/
theorem uri_before_first_separator_example :
    beforeQuerySeparator (((NewBuilder "localhost" "27017" "" "" :
        builder Unit).WithRetryWrites "a/?b").uri [("retryWrites", "a/?b")]) =
      "mongodb://" ++ "localhost" ++ ":" ++ "27017" :=
  (uri_before_first_separator
    ((NewBuilder "localhost" "27017" "" "" : builder Unit).WithRetryWrites "a/?b")
    [("retryWrites", "a/?b")]).mpr (by decide)

end MongoDB
